import Mathlib

/-!
Shallow embedding of the kepub-rs document transformation engine
(src/converter.rs, src/lmnt.rs, src/errors.rs) and proofs about it.

The tree model is the `Node` tagged union of the design (an `xmltree`
element/text/other node).  Rust functions are translated one-to-one;
every Rust `panic` site (the `todo!()` in `make_span`, the byte slice
`n[0..1]` on a non-boundary) is modelled by an `Option`/`none` result.
-/

inductive Node where
  | element (name : String) (attrs : List (String × String)) (children : List Node)
  | text (content : String)
  | other

/-- Attribute lookup: models `HashMap::get` (attribute keys are unique). -/
def attrGet (k : String) (attrs : List (String × String)) : Option String :=
  match attrs with
  | [] => none
  | (k2, v) :: rest => if k2 = k then some v else attrGet k rest

/-- Models `HashMap::insert`: overwrite the binding if the key exists, else add it. -/
def attrInsert (k v : String) (attrs : List (String × String)) : List (String × String) :=
  match attrs with
  | [] => [(k, v)]
  | (k2, v2) :: rest => if k2 = k then (k, v) :: rest else (k2, v2) :: attrInsert k v rest

/-- Models Rust `str::contains` (substring test): some suffix of `hay` starts with `pat`. -/
def strContains (hay pat : List Char) : Bool :=
  match hay with
  | [] => pat.isEmpty
  | _ :: t => pat.isPrefixOf hay || strContains t pat

/-! ## Sentence Segmenter (`split_sentences`, converter.rs lines 370-475) -/

inductive SInput where
  | PunctStandard
  | PunctExtra
  | Whitespace
  | Other
  | EOS
deriving DecidableEq

inductive SOutput where
  | None
  | Next
  | Rest
deriving DecidableEq

inductive SState where
  | Default
  | AfterPunct
  | AfterPunctExtra
  | AfterSpace
  | Finished
deriving DecidableEq

/-- The standard punctuation characters of the classifier. -/
def punctStandardChars : List Char := ['.', '!', '?']

/-- The extra punctuation characters of the classifier (closing quotes, apostrophe,
ellipsis), written by code point. -/
def punctExtraChars : List Char :=
  [Char.ofNat 39, Char.ofNat 34, Char.ofNat 8221, Char.ofNat 8217, Char.ofNat 8220,
   Char.ofNat 8230]

/-- The whitespace characters of the classifier (newline, carriage return, tab,
space), written by code point. -/
def whitespaceChars : List Char := [Char.ofNat 10, Char.ofNat 13, Char.ofNat 9, Char.ofNat 32]

/-- Character classification of the segmenter (converter.rs lines 407-413). -/
def classify (c : Char) : SInput :=
  if punctStandardChars.contains c then SInput.PunctStandard
  else if punctExtraChars.contains c then SInput.PunctExtra
  else if whitespaceChars.contains c then SInput.Whitespace
  else SInput.Other

/-- The transition table of the segmenter (converter.rs lines 418-448). -/
def step : SState → SInput → SOutput × SState
  | SState.Default, SInput.PunctStandard => (SOutput.None, SState.AfterPunct)
  | SState.Default, SInput.PunctExtra => (SOutput.None, SState.Default)
  | SState.Default, SInput.Whitespace => (SOutput.None, SState.Default)
  | SState.Default, SInput.Other => (SOutput.None, SState.Default)
  | SState.Default, SInput.EOS => (SOutput.Rest, SState.Finished)
  | SState.AfterPunct, SInput.PunctStandard => (SOutput.None, SState.AfterPunct)
  | SState.AfterPunct, SInput.PunctExtra => (SOutput.None, SState.AfterPunctExtra)
  | SState.AfterPunct, SInput.Whitespace => (SOutput.None, SState.AfterSpace)
  | SState.AfterPunct, SInput.Other => (SOutput.None, SState.Default)
  | SState.AfterPunct, SInput.EOS => (SOutput.Rest, SState.Finished)
  | SState.AfterPunctExtra, SInput.PunctStandard => (SOutput.None, SState.AfterPunct)
  | SState.AfterPunctExtra, SInput.PunctExtra => (SOutput.None, SState.Default)
  | SState.AfterPunctExtra, SInput.Whitespace => (SOutput.None, SState.AfterSpace)
  | SState.AfterPunctExtra, SInput.Other => (SOutput.None, SState.Default)
  | SState.AfterPunctExtra, SInput.EOS => (SOutput.Rest, SState.Finished)
  | SState.AfterSpace, SInput.PunctStandard => (SOutput.Next, SState.AfterPunct)
  | SState.AfterSpace, SInput.PunctExtra => (SOutput.Next, SState.Default)
  | SState.AfterSpace, SInput.Whitespace => (SOutput.None, SState.AfterSpace)
  | SState.AfterSpace, SInput.Other => (SOutput.Next, SState.Default)
  | SState.AfterSpace, SInput.EOS => (SOutput.Rest, SState.Finished)
  | SState.Finished, _ => (SOutput.Rest, SState.Finished)

/-- The `Output::Rest` action (converter.rs lines 462-470): at end of input, push the
whole text if no sentence was ever cut, push the remainder if more than one character
of it is left, and otherwise push nothing (the single-character drop). -/
def restPush (text : List Char) (i seg_begin : Nat) (sentences : List (List Char)) :
    List (List Char) :=
  if sentences.length = 0 then sentences ++ [text]
  else if i > seg_begin + 1 then sentences ++ [text.drop seg_begin]
  else sentences

/-- The main loop of `split_sentences` (converter.rs lines 401-472).  The Rust loop
walks an index `i` over the character vector; here the yet-unscanned suffix is the
recursion argument and `i` tracks the position, so `rest = text.drop i` at every call.
`Output::None` advances one character; `Output::Next` cuts the sentence
`text[seg_begin..i]` and starts the next one at `i`; end of input (or `Output::Rest`)
performs the `restPush` action and the machine finishes. -/
def splitGo (text : List Char) : List Char → Nat → Nat → SState → List (List Char) →
    List (List Char)
  | [], i, seg_begin, _, sentences => restPush text i seg_begin sentences
  | c :: rest, i, seg_begin, state, sentences =>
    match step state (classify c) with
    | (SOutput.None, s2) => splitGo text rest (i + 1) seg_begin s2 sentences
    | (SOutput.Next, s2) =>
        splitGo text rest (i + 1) i s2
          (sentences ++ [(text.drop seg_begin).take (i - seg_begin)])
    | (SOutput.Rest, _) => restPush text i seg_begin sentences

/-- The function `split_sentences` (converter.rs line 370). -/
def split_sentences (text : String) : List String :=
  (splitGo text.data text.data 0 0 SState.Default []).map String.mk

/-! ## Span Converter (`_convert_kobo_spans`, converter.rs lines 263-365) -/

/-- The shared segmentation context: the three `&mut` parameters
`para`, `sent`, `force_new_para` threaded through the rewrite. -/
structure Ctx where
  para : Nat
  sent : Nat
  force_new_para : Bool
deriving DecidableEq

/-- The marker id `format!("kobo.{}.{}", para, seg)` (without braces:
`kobo.` ++ para ++ `.` ++ seg). -/
def koboId (para seg : Nat) : String :=
  "kobo." ++ Nat.repr para ++ "." ++ Nat.repr seg

/-- The function `make_span` (converter.rs lines 352-365).  With `content = None` the Rust
function executes `todo!()` and panics, modelled by `none`. -/
def make_span (para seg : Nat) (content : Option String) : Option Node :=
  match content with
  | some c =>
      some (Node.element "span" [("class", "kobospan"), ("id", koboId para seg)]
        [Node.text c])
  | none => none

/-- The Unicode White_Space code points recognised by Rust `char::is_whitespace`. -/
def isRustWhitespace (c : Char) : Bool :=
  [9, 10, 11, 12, 13, 32, 133, 160, 5760, 8192, 8193, 8194, 8195, 8196, 8197, 8198,
   8199, 8200, 8201, 8202, 8232, 8233, 8239, 8287, 12288].contains c.toNat

/-- Models `sentence.trim().len() == 0`: trimming whitespace from both ends leaves
the empty string exactly when every character is whitespace. -/
def isBlank (s : String) : Bool := s.data.all isRustWhitespace

/-- Sum of the UTF-8 byte sizes: Rust `str::len()`. -/
def utf8Len (s : List Char) : Nat := (s.map Char.utf8Size).sum

/-- Models the guard fragment `n.len() == 2 && n[0..1] == *"h"`
(converter.rs line 305).  `n.len()` is the UTF-8 byte length; the slice `n[0..1]`
panics (modelled by `none`) when byte index 1 is not a character boundary, i.e.
when the first character occupies more than one byte.  When the first character
is a single byte, the one-byte slice equals `"h"` exactly when that character
is `h`. -/
def headingTest (s : String) : Option Bool :=
  if utf8Len s.data = 2 then
    match s.data with
    | [] => some false
    | c :: _ => if c.utf8Size = 1 then some (c == 'h') else none
  else some false

/-- The full guard of the second match arm (converter.rs lines 304-305):
`["p", "ol", "ul", "table"].contains(&n) || (n.len() == 2 && n[0..1] == *"h")`.
The contains test short-circuits, so the possibly-panicking heading test only
runs when it fails. -/
def breakTest (n : String) : Option Bool :=
  if ["p", "ol", "ul", "table"].contains n then some true
  else headingTest n

/-- The mutation `if *force_new_para { *para += 1; *sent = 0; *force_new_para = false; }`
(converter.rs lines 331-335). -/
def applyBreak (ctx : Ctx) : Ctx :=
  if ctx.force_new_para then { para := ctx.para + 1, sent := 0, force_new_para := false }
  else ctx

/-- The mutation `*sent += 1` (converter.rs line 336). -/
def bumpSent (ctx : Ctx) : Ctx := { ctx with sent := ctx.sent + 1 }

/-- The per-sentence loop of the `XMLNode::Text` arm (converter.rs lines 327-343):
whitespace sentences are dropped unless the parent element is named `p`; any other
sentence first applies a pending paragraph break, then increments `sent` and is
wrapped in a marker span. -/
def emitSentences (pname : String) (ctx : Ctx) : List String → Option (List Node × Ctx)
  | [] => some ([], ctx)
  | sentence :: rest =>
    if isBlank sentence ∧ pname ≠ "p" then emitSentences pname ctx rest
    else
      let c2 := bumpSent (applyBreak ctx)
      match make_span c2.para c2.sent (some sentence) with
      | none => none
      | some sp =>
        match emitSentences pname c2 rest with
        | none => none
        | some (outs, c3) => some (sp :: outs, c3)

/-- The push `s.children.push(child)` on an element. -/
def pushChild (parent child : Node) : Node :=
  match parent with
  | Node.element n a cs => Node.element n a (cs ++ [child])
  | x => x

mutual
/-- The body of the `for child in parent_elem.children.drain(0..)` loop of
`_convert_kobo_spans` (converter.rs lines 289-346) for a single child: returns the
nodes this child contributes to the parent's new child list, and the updated
shared context.  `pname` is `parent_elem.name`. `none` models a panic:
the `todo!()` reached through `make_span(_, _, None)` in the `img` arm, and the
byte-slice panic possible in the heading guard. -/
def convertChild (pname : String) (ctx : Ctx) : Node → Option (List Node × Ctx)
  | Node.element name attrs cs =>
    if name = "img" then
      match make_span (ctx.para + 1) 0 none with
      | none => none
      | some s =>
        match _convert_kobo_spans name
            { para := ctx.para + 1, sent := 0, force_new_para := false } cs with
        | none => none
        | some (outs, c2) =>
            some (pushChild s (Node.element name attrs cs) :: outs, c2)
    else
      match breakTest name with
      | none => none
      | some true => _convert_kobo_spans name { ctx with force_new_para := true } cs
      | some false =>
        if name = "math" ∨ name = "svg" then some ([], ctx)
        else _convert_kobo_spans name ctx cs
  | Node.text t => emitSentences pname ctx (split_sentences t)
  | Node.other => some ([], ctx)

/-- The method `_convert_kobo_spans` (converter.rs lines 281-349): rewrite the child list of
an element named `pname`, threading the shared context left to right.  Note that
for element children the recursion result is appended directly to the parent's
new child list (`new_children.append(...)`); the visited element itself is never
pushed back. -/
def _convert_kobo_spans (pname : String) (ctx : Ctx) :
    List Node → Option (List Node × Ctx)
  | [] => some ([], ctx)
  | child :: rest =>
    match convertChild pname ctx child with
    | none => none
    | some (out1, c1) =>
      match _convert_kobo_spans pname c1 rest with
      | none => none
      | some (out2, c2) => some (out1 ++ out2, c2)
end

mutual
/-- The idempotency guard scan (converter.rs lines 267-271): does this node or any
element below it (the `descendants()` iterator yields the root itself and then all
element descendants) have a `class` attribute containing `kobospan`? -/
def hasKoboClass : Node → Bool
  | Node.element _ attrs cs =>
    (match attrGet "class" attrs with
     | some cl => strContains cl.data "kobospan".data
     | none => false) || hasKoboClassList cs
  | _ => false

def hasKoboClassList : List Node → Bool
  | [] => false
  | n :: rest => hasKoboClass n || hasKoboClassList rest
end

/-- The method `convert_kobo_spans` (converter.rs lines 266-279): if any element in scope of
the scan already carries a `kobospan` class the children are left untouched;
otherwise they are replaced by the rewrite's result.  Takes the parts of the body
element; returns its new child list. -/
def convert_kobo_spans (name : String) (attrs : List (String × String))
    (children : List Node) : Option (List Node) :=
  if hasKoboClass (Node.element name attrs children) then some children
  else
    match _convert_kobo_spans name { para := 0, sent := 0, force_new_para := false }
        children with
    | none => none
    | some (new_children, _) => some new_children

/-! ## Body Restructurer and per-document pipeline (converter.rs lines 228-261) -/

/-- The scaffold built in `convert_html_file`: an outer `div` with id
`book-columns` holding an inner `div` with id `book-inner` holding the original
children. -/
def scaffold (cs : List Node) : List Node :=
  [Node.element "div" [("id", "book-columns")]
    [Node.element "div" [("id", "book-inner")] cs]]

/-- Models `get_mut_child(tag)` (a borrow of the first direct child element named
`tag`) followed by a mutation of that child: `f` receives the parts of the found
child and produces its replacement.  `none` when no direct child element is named
`tag`, or when `f` itself fails. -/
def mutFirstChild (tag : String)
    (f : String → List (String × String) → List Node → Option Node) :
    List Node → Option (List Node)
  | [] => none
  | Node.element n a cs :: rest =>
    if n = tag then
      match f n a cs with
      | none => none
      | some n2 => some (n2 :: rest)
    else
      match mutFirstChild tag f rest with
      | none => none
      | some rest2 => some (Node.element n a cs :: rest2)
  | x :: rest =>
    match mutFirstChild tag f rest with
    | none => none
    | some rest2 => some (x :: rest2)

/-- The Body Restructurer: converter.rs lines 234-251, the part of
`convert_html_file` before the span conversion.  Applied to the root's children;
fails exactly when the root has no direct child named `body`. -/
def restructure (root_children : List Node) : Option (List Node) :=
  mutFirstChild "body" (fun n a cs => some (Node.element n a (scaffold cs)))
    root_children

/-- The method `convert_html_file` minus the file IO (converter.rs lines 232-259): find the
body, wrap its children in the scaffold, then run the span conversion on the
restructured body. -/
def convert_html_file (root_children : List Node) : Option (List Node) :=
  mutFirstChild "body"
    (fun n a cs =>
      match convert_kobo_spans n a (scaffold cs) with
      | none => none
      | some out => some (Node.element n a out))
    root_children

/-! ## Manifest Patcher (`convert_opf`, converter.rs lines 128-175; lmnt.rs) -/

/-- The attributes of a node (empty for non-elements). -/
def nodeAttrs : Node → List (String × String)
  | Node.element _ a _ => a
  | _ => []

/-- The name of a node (empty for non-elements). -/
def nodeName : Node → String
  | Node.element n _ _ => n
  | _ => ""

/-- Is this node an element named `tag`? -/
def isElemNamed (tag : String) : Node → Bool
  | Node.element n _ _ => n == tag
  | _ => false

/-- The test `attrs.iter().all(|(k, v)| element.attributes.get(*k).is_some_and(|val| val == v))`
(lmnt.rs lines 44-46). -/
def attrsMatch (want : List (String × String)) (attrs : List (String × String)) : Bool :=
  want.all fun kv =>
    match attrGet kv.1 attrs with
    | some val => val == kv.2
    | none => false

mutual
/-- The method `find_first_child_with_attrs` (lmnt.rs lines 39-61) on a child list: scan the
children in order; an element child that matches is returned at once, a
non-matching element child is searched recursively before moving to the next
sibling; non-element children are skipped. -/
def find_first_child_with_attrs (tag : String) (want : List (String × String)) :
    List Node → Option Node
  | [] => none
  | child :: rest =>
    match findInChild tag want child with
    | some e => some e
    | none => find_first_child_with_attrs tag want rest

/-- The per-child step of `find_first_child_with_attrs`. -/
def findInChild (tag : String) (want : List (String × String)) : Node → Option Node
  | Node.element n a cs =>
    if n = tag && attrsMatch want a then some (Node.element n a cs)
    else find_first_child_with_attrs tag want cs
  | _ => none
end

mutual
/-- The method `find_first_child_with_attrs_mut` (lmnt.rs lines 63-89) combined with the
mutation performed through the returned borrow: the first matching element (same
search order as `find_first_child_with_attrs`) is replaced by `f` applied to it;
`none` when there is no match. -/
def find_first_child_with_attrs_mut (tag : String) (want : List (String × String))
    (f : Node → Node) : List Node → Option (List Node)
  | [] => none
  | child :: rest =>
    match patchInChild tag want f child with
    | some child2 => some (child2 :: rest)
    | none =>
      match find_first_child_with_attrs_mut tag want f rest with
      | none => none
      | some rest2 => some (child :: rest2)

/-- The per-child step of `find_first_child_with_attrs_mut`: `some` when the match
happened inside this child (returning the rewritten child), `none` when this
child's subtree has no match. -/
def patchInChild (tag : String) (want : List (String × String)) (f : Node → Node) :
    Node → Option Node
  | Node.element n a cs =>
    if n = tag && attrsMatch want a then some (f (Node.element n a cs))
    else
      match find_first_child_with_attrs_mut tag want f cs with
      | none => none
      | some cs2 => some (Node.element n a cs2)
  | _ => none
end

/-- The error enum of errors.rs (lines 7-12); the `IOErr` payload is reduced to
its message. -/
inductive ConverterError where
  | IOErr (msg : String)
  | XMLError (msg : String)
  | Other (msg : String)
deriving DecidableEq

/-- The mutation `e.attributes.insert("properties".to_string(), "cover-image".to_string())`
(converter.rs lines 158-160) applied to the found item element. -/
def setCoverImage : Node → Node
  | Node.element n a cs => Node.element n (attrInsert "properties" "cover-image" a) cs
  | x => x

/-- The method `convert_opf` minus the file IO (converter.rs lines 128-175), applied to the
parsed manifest root: read the cover id from the first `meta` element with
`name="cover"`, then set `properties="cover-image"` on the first `item` element
whose `id` equals it.  Each missing piece produces the corresponding `XMLError`. -/
def convert_opf (root_name : String) (root_attrs : List (String × String))
    (root_children : List Node) : Except ConverterError Node :=
  match find_first_child_with_attrs "meta" [("name", "cover")] root_children with
  | none => Except.error (ConverterError.XMLError
      "Cannot find meta name cover element in content.opf")
  | some meta_elem =>
    match attrGet "content" (nodeAttrs meta_elem) with
    | none => Except.error (ConverterError.XMLError
        "Cannot read content attribute in meta name cover element in content.opf")
    | some cover_id =>
      match find_first_child_with_attrs_mut "item" [("id", cover_id)] setCoverImage
          root_children with
      | none => Except.error (ConverterError.XMLError
          "Cannot find item with cover id in content.opf")
      | some cs2 => Except.ok (Node.element root_name root_attrs cs2)

/-- The impl `Display for ConverterError` (errors.rs lines 14-18) is
`write!(f, ..., self)` with a `Display` format argument, so formatting `self`
immediately formats `self` again with the same instance.  `fmtDisplay n e`
evaluates that recursion under a depth budget `n`; `none` means the recursion has
not produced a string within that budget. -/
def fmtDisplay : Nat → ConverterError → Option String
  | 0, _ => none
  | n + 1, e => fmtDisplay n e

/-! ## Observers used by the theorems -/

mutual
/-- Is there an element named `tag` anywhere in this node (itself included)? -/
def hasElemNamed (tag : String) : Node → Bool
  | Node.element n _ cs => n == tag || hasElemNamedList tag cs
  | _ => false

def hasElemNamedList (tag : String) : List Node → Bool
  | [] => false
  | n :: rest => hasElemNamed tag n || hasElemNamedList tag rest
end

mutual
/-- All marker ids in a node, depth-first: the `id` attributes of elements whose
`class` attribute contains `kobospan`. -/
def markerIds : Node → List String
  | Node.element _ attrs cs =>
    (match attrGet "class" attrs with
     | some cl =>
       if strContains cl.data "kobospan".data then
         (match attrGet "id" attrs with
          | some i => [i]
          | none => [])
       else []
     | none => []) ++ markerIdsList cs
  | _ => []

def markerIdsList : List Node → List String
  | [] => []
  | n :: rest => markerIds n ++ markerIdsList rest
end

/-- A node is exactly a marker span produced by `make_span` for the pair
`(paragraph, sentence)`, holding some text. -/
def SpanShaped (n : Node) (pr : Nat × Nat) : Prop :=
  ∃ t, n = Node.element "span" [("class", "kobospan"), ("id", koboId pr.1 pr.2)]
    [Node.text t]

/-- How one emitted `(paragraph, sentence)` marker may follow the previous one
(or the starting context): same paragraph with the sentence counter bumped, or
the next paragraph with the sentence counter restarted at 1. -/
def StepOk (a b : Nat × Nat) : Prop :=
  (b.1 = a.1 ∧ b.2 = a.2 + 1) ∨ (b.1 = a.1 + 1 ∧ b.2 = 1)

/-- Base-10 value of a digit string, used to invert `Nat.repr`. -/
def digitsVal (l : List Char) : Nat :=
  l.foldl (fun a c => 10 * a + (c.toNat - 48)) 0

/-- Strict lexicographic order on `(paragraph, sentence)` pairs. -/
def PairLt (a b : Nat × Nat) : Prop :=
  a.1 < b.1 ∨ (a.1 = b.1 ∧ a.2 < b.2)

instance : IsTrans (Nat × Nat) PairLt :=
  ⟨by
    intro a b c hab hbc
    unfold PairLt at *
    omega⟩

/-- The emission invariant of the span rewrite: starting from context `ctx` and
ending in context `ctx2`, the produced nodes `out` are exactly marker spans whose
`(paragraph, sentence)` pairs follow each other by `StepOk` starting from the
context's counters, and the final counters equal the last emitted pair (or the
starting counters when nothing was emitted). -/
def EmitsInv (ctx : Ctx) (out : List Node) (ctx2 : Ctx) : Prop :=
  ∃ ps : List (Nat × Nat),
    List.Forall₂ SpanShaped out ps ∧
    List.Chain StepOk (ctx.para, ctx.sent) ps ∧
    (ctx2.para, ctx2.sent) = ps.getLastD (ctx.para, ctx.sent)

/-! ## Lemmas about the segmenter -/

theorem take_append_take_drop (text : List Char) {b i : Nat} (hb : b ≤ i) :
    text.take b ++ (text.drop b).take (i - b) = text.take i := by
  have h1 : (text.drop b).take (i - b) = (text.take i).drop b := by
    rw [List.take_drop, Nat.add_sub_cancel' hb]
  have h2 : text.take b = (text.take i).take b := by
    rw [List.take_take, Nat.min_eq_left hb]
  rw [h1, h2, List.take_append_drop]

theorem restPush_flatten (text : List Char) (i b : Nat) (acc : List (List Char))
    (hb : b ≤ i) (hlen : text.length ≤ i) (hacc : acc.flatten = text.take b) :
    (restPush text i b acc).flatten = text ∨
      (text ≠ [] ∧ (restPush text i b acc).flatten = text.dropLast) := by
  unfold restPush
  by_cases h0 : acc.length = 0
  · left
    have hnil : acc = [] := List.length_eq_zero.mp h0
    simp [h0, hnil]
  · rw [if_neg h0]
    by_cases h1 : i > b + 1
    · left
      rw [if_pos h1, List.flatten_append, hacc]
      simp [List.take_append_drop]
    · rw [if_neg h1, hacc]
      by_cases h2 : text.length ≤ b
      · left
        exact List.take_of_length_le h2
      · right
        have hblt : b < text.length := Nat.lt_of_not_le h2
        have hexact : text.length = b + 1 := by omega
        constructor
        · intro hn
          rw [hn] at hblt
          simp at hblt
        · rw [List.dropLast_eq_take, hexact]
          simp

theorem classify_ne_eos (c : Char) : classify c ≠ SInput.EOS := by
  unfold classify
  split
  · simp
  split
  · simp
  split <;> simp

theorem step_live (st : SState) (inp : SInput) (hst : st ≠ SState.Finished)
    (hinp : inp ≠ SInput.EOS) :
    (step st inp).1 ≠ SOutput.Rest ∧ (step st inp).2 ≠ SState.Finished := by
  cases st <;> cases inp <;> simp_all [step]

theorem splitGo_flatten (text : List Char) :
    ∀ (rest : List Char) (i b : Nat) (st : SState) (acc : List (List Char)),
      rest = text.drop i → b ≤ i → st ≠ SState.Finished →
      acc.flatten = text.take b →
      (splitGo text rest i b st acc).flatten = text ∨
        (text ≠ [] ∧ (splitGo text rest i b st acc).flatten = text.dropLast) := by
  intro rest
  induction rest with
  | nil =>
    intro i b st acc hrest hb hst hacc
    have hlen : text.length ≤ i := List.drop_eq_nil_iff.mp hrest.symm
    exact restPush_flatten text i b acc hb hlen hacc
  | cons c rest ih =>
    intro i b st acc hrest hb hst hacc
    have hrest2 : rest = text.drop (i + 1) := by
      have h1 : (text.drop i).drop 1 = text.drop (i + 1) := List.drop_drop 1 i text
      rw [← hrest] at h1
      simpa using h1
    have hlive := step_live st (classify c) hst (classify_ne_eos c)
    rcases hstep : step st (classify c) with ⟨out, s2⟩
    rw [hstep] at hlive
    cases out with
    | None =>
      have hgoal : splitGo text (c :: rest) i b st acc = splitGo text rest (i + 1) b s2 acc := by
        conv_lhs => rw [splitGo]
        rw [hstep]
      rw [hgoal]
      exact ih (i + 1) b s2 acc hrest2 (Nat.le_succ_of_le hb) hlive.2 hacc
    | Next =>
      have hgoal : splitGo text (c :: rest) i b st acc =
          splitGo text rest (i + 1) i s2
            (acc ++ [(text.drop b).take (i - b)]) := by
        conv_lhs => rw [splitGo]
        rw [hstep]
      rw [hgoal]
      refine ih (i + 1) i s2 _ hrest2 (Nat.le_succ i) hlive.2 ?_
      rw [List.flatten_append, hacc]
      simpa using take_append_take_drop text hb
    | Rest =>
      exact absurd rfl hlive.1

theorem join_map_mk (L : List (List Char)) :
    String.join (L.map String.mk) = String.mk L.flatten := by
  apply String.ext
  rw [String.data_join, List.map_map]
  have hcomp : (String.data ∘ String.mk) = id := rfl
  rw [hcomp, List.map_id]

/-- C3: for every input string, concatenating the sentence substrings returned by
`split_sentences` equals the input, except that (when at least one boundary was
cut and) exactly one character remained unconsumed past the last cut, in which
case exactly that final character is dropped: the concatenation is the input
minus its last character.  (When no boundary is ever cut the whole input, even
empty or all-whitespace, is returned verbatim, so it falls under the first
disjunct.) -/
theorem C3_split_sentences_reconstruction (text : String) :
    String.join (split_sentences text) = text ∨
      (text ≠ "" ∧
        String.join (split_sentences text) = String.mk text.data.dropLast) := by
  have h := splitGo_flatten text.data text.data 0 0 SState.Default []
    (by simp) (Nat.le_refl 0) (by simp) (by simp)
  unfold split_sentences
  rcases h with h | ⟨hne, h⟩
  · left
    rw [join_map_mk, h]
  · right
    constructor
    · intro hempty
      rw [hempty] at hne
      exact hne rfl
    · rw [join_map_mk, h]

/-! ## `Nat.repr` is injective and digit-only (for marker id uniqueness) -/

theorem digitChar_toNat (m : Nat) (h : m < 10) : (Nat.digitChar m).toNat = 48 + m := by
  interval_cases m <;> rfl

theorem repr_data (n : Nat) : (Nat.repr n).data = Nat.toDigits 10 n := rfl

theorem toDigitsCore_acc (n : Nat) : ∀ (f : Nat) (acc : List Char), n < f →
    Nat.toDigitsCore 10 f n acc = Nat.toDigitsCore 10 f n [] ++ acc := by
  induction n using Nat.strong_induction_on with
  | _ n ih =>
    intro f acc hf
    match f with
    | 0 => omega
    | f + 1 =>
      simp only [Nat.toDigitsCore]
      by_cases h0 : n / 10 = 0
      · simp [h0]
      · have hn0 : 0 < n := by
          rcases Nat.eq_zero_or_pos n with h | h
          · rw [h] at h0
            simp at h0
          · exact h
        have hlt : n / 10 < n := Nat.div_lt_self hn0 (by omega)
        rw [if_neg h0, if_neg h0,
          ih (n / 10) hlt f (Nat.digitChar (n % 10) :: acc) (by omega),
          ih (n / 10) hlt f [Nat.digitChar (n % 10)] (by omega),
          List.append_assoc]
        rfl

theorem digitsVal_append_single (xs : List Char) (c : Char) :
    digitsVal (xs ++ [c]) = 10 * digitsVal xs + (c.toNat - 48) := by
  unfold digitsVal
  rw [List.foldl_append]
  rfl

theorem toDigits_spec (n : Nat) : ∀ f, n < f →
    digitsVal (Nat.toDigitsCore 10 f n []) = n ∧
    Nat.toDigitsCore 10 f n [] ≠ [] ∧
    ∀ c ∈ Nat.toDigitsCore 10 f n [], 48 ≤ c.toNat ∧ c.toNat ≤ 57 := by
  induction n using Nat.strong_induction_on with
  | _ n ih =>
    intro f hf
    match f with
    | 0 => omega
    | f + 1 =>
      have hmod : n % 10 < 10 := Nat.mod_lt n (by omega)
      have hdval : (Nat.digitChar (n % 10)).toNat = 48 + n % 10 :=
        digitChar_toNat (n % 10) hmod
      simp only [Nat.toDigitsCore]
      by_cases h0 : n / 10 = 0
      · have hn : n < 10 := by omega
        rw [if_pos h0]
        refine ⟨?_, by simp, ?_⟩
        · show 10 * 0 + ((Nat.digitChar (n % 10)).toNat - 48) = n
          rw [hdval]
          omega
        · intro c hc
          simp at hc
          rw [hc, hdval]
          omega
      · have hn0 : 0 < n := by
          rcases Nat.eq_zero_or_pos n with h | h
          · rw [h] at h0
            simp at h0
          · exact h
        have hlt : n / 10 < n := Nat.div_lt_self hn0 (by omega)
        have hih := ih (n / 10) hlt f (by omega)
        rw [if_neg h0, toDigitsCore_acc (n / 10) f [Nat.digitChar (n % 10)] (by omega)]
        refine ⟨?_, by simp [hih.2.1], ?_⟩
        · rw [digitsVal_append_single, hih.1, hdval]
          omega
        · intro c hc
          rcases List.mem_append.mp hc with h | h
          · exact hih.2.2 c h
          · simp at h
            rw [h, hdval]
            omega

theorem toDigits_val (n : Nat) : digitsVal (Nat.toDigits 10 n) = n :=
  (toDigits_spec n (n + 1) (by omega)).1

theorem toDigits_digits (n : Nat) :
    ∀ c ∈ Nat.toDigits 10 n, 48 ≤ c.toNat ∧ c.toNat ≤ 57 :=
  (toDigits_spec n (n + 1) (by omega)).2.2

theorem toDigits_inj {m n : Nat} (h : Nat.toDigits 10 m = Nat.toDigits 10 n) :
    m = n := by
  have h1 := toDigits_val m
  rw [h, toDigits_val n] at h1
  exact h1.symm

theorem append_sep_inj (sep : Char) :
    ∀ (A C B D : List Char), (∀ c ∈ A, c ≠ sep) → (∀ c ∈ C, c ≠ sep) →
      A ++ sep :: B = C ++ sep :: D → A = C ∧ B = D := by
  intro A
  induction A with
  | nil =>
    intro C B D hA hC h
    cases C with
    | nil => simpa using h
    | cons c0 C =>
      simp at h
      exact absurd h.1.symm (hC c0 (by simp))
  | cons a A ih =>
    intro C B D hA hC h
    cases C with
    | nil =>
      simp at h
      exact absurd h.1 (hA a (by simp))
    | cons c0 C =>
      simp at h
      obtain ⟨h1, h2⟩ := h
      have hrec := ih C B D (fun c hc => hA c (by simp [hc])) (fun c hc => hC c (by simp [hc])) h2
      exact ⟨by simp [h1, hrec.1], hrec.2⟩

theorem koboId_inj {p s q t : Nat} (h : koboId p s = koboId q t) : p = q ∧ s = t := by
  have hd := congrArg String.data h
  simp only [koboId, String.data_append] at hd
  have hdig : ∀ n, ∀ c ∈ (Nat.repr n).data, c ≠ Char.ofNat 46 := by
    intro n c hc heq
    rw [repr_data] at hc
    have := (toDigits_digits n c hc).1
    have h57 := (toDigits_digits n c hc).2
    rw [heq] at this
    simp at this
  have hd2 : (Nat.repr p).data ++ Char.ofNat 46 :: (Nat.repr s).data =
      (Nat.repr q).data ++ Char.ofNat 46 :: (Nat.repr t).data := by
    simpa using hd
  have hsplit := append_sep_inj (Char.ofNat 46) (Nat.repr p).data (Nat.repr q).data
    (Nat.repr s).data (Nat.repr t).data (hdig p) (hdig q) hd2
  constructor
  · exact toDigits_inj (hsplit.1 : Nat.toDigits 10 p = Nat.toDigits 10 q)
  · exact toDigits_inj (hsplit.2 : Nat.toDigits 10 s = Nat.toDigits 10 t)

/-! ## Lemmas about the span converter -/

theorem getLastD_append {α : Type} (l1 l2 : List α) (a : α) :
    (l1 ++ l2).getLastD a = l2.getLastD (l1.getLastD a) := by
  induction l1 generalizing a with
  | nil => simp
  | cons x l1 ih => rw [List.cons_append, List.getLastD_cons, List.getLastD_cons, ih]

theorem chain_append_getLastD {α : Type} {R : α → α → Prop} :
    ∀ (l1 : List α) (a : α) (l2 : List α),
      List.Chain R a l1 → List.Chain R (l1.getLastD a) l2 →
      List.Chain R a (l1 ++ l2) := by
  intro l1
  induction l1 with
  | nil =>
    intro a l2 h1 h2
    simpa using h2
  | cons x l1 ih =>
    intro a l2 h1 h2
    rcases List.chain_cons.mp h1 with ⟨hax, hch⟩
    rw [List.getLastD_cons] at h2
    exact List.chain_cons.mpr ⟨hax, ih x l2 hch h2⟩

theorem EmitsInv_nil (ctx : Ctx) : EmitsInv ctx [] ctx :=
  ⟨[], List.Forall₂.nil, List.Chain.nil, rfl⟩

theorem EmitsInv_append {c1 c2 c3 : Ctx} {out1 out2 : List Node}
    (h1 : EmitsInv c1 out1 c2) (h2 : EmitsInv c2 out2 c3) :
    EmitsInv c1 (out1 ++ out2) c3 := by
  obtain ⟨ps1, hf1, hch1, hl1⟩ := h1
  obtain ⟨ps2, hf2, hch2, hl2⟩ := h2
  refine ⟨ps1 ++ ps2, List.rel_append hf1 hf2, ?_, ?_⟩
  · refine chain_append_getLastD ps1 _ ps2 hch1 ?_
    rw [← hl1]
    exact hch2
  · rw [getLastD_append, ← hl1]
    exact hl2

theorem stepOk_bump (ctx : Ctx) :
    StepOk (ctx.para, ctx.sent)
      ((bumpSent (applyBreak ctx)).para, (bumpSent (applyBreak ctx)).sent) := by
  unfold StepOk bumpSent applyBreak
  by_cases h : ctx.force_new_para = true <;> simp [h]

theorem emitSentences_inv (pname : String) :
    ∀ (ss : List String) (ctx : Ctx) (out : List Node) (ctx2 : Ctx),
      emitSentences pname ctx ss = some (out, ctx2) → EmitsInv ctx out ctx2 := by
  intro ss
  induction ss with
  | nil =>
    intro ctx out ctx2 heq
    rw [emitSentences] at heq
    simp only [Option.some.injEq, Prod.mk.injEq] at heq
    obtain ⟨rfl, rfl⟩ := heq
    exact EmitsInv_nil ctx
  | cons s rest ih =>
    intro ctx out ctx2 heq
    rw [emitSentences] at heq
    by_cases hskip : isBlank s ∧ pname ≠ "p"
    · rw [if_pos hskip] at heq
      exact ih ctx out ctx2 heq
    · rw [if_neg hskip] at heq
      simp only [make_span] at heq
      rcases hrec : emitSentences pname (bumpSent (applyBreak ctx)) rest with _ | ⟨outs, c3⟩
      · rw [hrec] at heq
        simp at heq
      · rw [hrec] at heq
        simp only [Option.some.injEq, Prod.mk.injEq] at heq
        obtain ⟨rfl, rfl⟩ := heq
        obtain ⟨ps, hf, hch, hl⟩ := ih (bumpSent (applyBreak ctx)) outs c3 hrec
        refine ⟨((bumpSent (applyBreak ctx)).para, (bumpSent (applyBreak ctx)).sent) :: ps,
          ?_, ?_, ?_⟩
        · exact List.Forall₂.cons ⟨s, rfl⟩ hf
        · exact List.chain_cons.mpr ⟨stepOk_bump ctx, hch⟩
        · rw [List.getLastD_cons]
          exact hl

theorem convertChild_img (pname : String) (ctx : Ctx) (attrs : List (String × String))
    (cs : List Node) :
    convertChild pname ctx (Node.element "img" attrs cs) = none := rfl

theorem convertChild_text (pname : String) (ctx : Ctx) (t : String) :
    convertChild pname ctx (Node.text t) = emitSentences pname ctx (split_sentences t) := rfl

theorem ckob_nil (pname : String) (ctx : Ctx) :
    _convert_kobo_spans pname ctx [] = some ([], ctx) := rfl

theorem ckob_cons (pname : String) (ctx : Ctx) (child : Node) (rest : List Node) :
    _convert_kobo_spans pname ctx (child :: rest) =
      match convertChild pname ctx child with
      | none => none
      | some (out1, c1) =>
        match _convert_kobo_spans pname c1 rest with
        | none => none
        | some (out2, c2) => some (out1 ++ out2, c2) := rfl

theorem convertChild_elem (pname : String) (ctx : Ctx) (name : String)
    (attrs : List (String × String)) (cs : List Node) (b : Bool)
    (himg : name ≠ "img") (hbreak : breakTest name = some b)
    (hmath : name ≠ "math") (hsvg : name ≠ "svg") :
    convertChild pname ctx (Node.element name attrs cs) =
      _convert_kobo_spans name
        (if b then { ctx with force_new_para := true } else ctx) cs := by
  rw [convertChild, if_neg himg, hbreak]
  cases b
  · show (if name = "math" ∨ name = "svg" then some ([], ctx)
      else _convert_kobo_spans name ctx cs) = _
    rw [if_neg (by simp [hmath, hsvg])]
    rfl
  · rfl

theorem convert_spans_inv :
    (∀ (pname : String) (ctx : Ctx) (n : Node) (out : List Node) (ctx2 : Ctx),
        convertChild pname ctx n = some (out, ctx2) → EmitsInv ctx out ctx2) ∧
    (∀ (pname : String) (ctx : Ctx) (l : List Node) (out : List Node) (ctx2 : Ctx),
        _convert_kobo_spans pname ctx l = some (out, ctx2) → EmitsInv ctx out ctx2) := by
  refine convertChild.mutual_induct
    (fun pname ctx n => ∀ out ctx2,
      convertChild pname ctx n = some (out, ctx2) → EmitsInv ctx out ctx2)
    (fun pname ctx l => ∀ out ctx2,
      _convert_kobo_spans pname ctx l = some (out, ctx2) → EmitsInv ctx out ctx2)
    ?_ ?_ ?_ ?_ ?_ ?_ ?_ ?_ ?_ ?_ ?_ ?_ ?_
  · intro pname ctx attrs cs hms out ctx2 heq
    rw [convertChild_img] at heq
    exact absurd heq (by simp)
  · intro pname ctx attrs cs sp hms hrec hih out ctx2 heq
    exact absurd hms (by simp [make_span])
  · intro pname ctx attrs cs sp hms outs c3 hrec hih out ctx2 heq
    exact absurd hms (by simp [make_span])
  · intro pname ctx name attrs cs hname hbreak out ctx2 heq
    rw [convertChild, if_neg hname, hbreak] at heq
    exact Option.noConfusion heq
  · intro pname ctx name attrs cs hname hbreak hih out ctx2 heq
    rw [convertChild, if_neg hname, hbreak] at heq
    exact hih out ctx2 heq
  · intro pname ctx name attrs cs hname hbreak hms out ctx2 heq
    rw [convertChild, if_neg hname, hbreak] at heq
    show EmitsInv ctx out ctx2
    have heq2 : some (([] : List Node), ctx) = some (out, ctx2) := by
      rw [← heq]
      show some ([], ctx) = if name = "math" ∨ name = "svg" then some ([], ctx)
        else _convert_kobo_spans name ctx cs
      rw [if_pos hms]
    simp only [Option.some.injEq, Prod.mk.injEq] at heq2
    obtain ⟨rfl, rfl⟩ := heq2
    exact EmitsInv_nil ctx
  · intro pname ctx name attrs cs hname hbreak hms hih out ctx2 heq
    rw [convertChild, if_neg hname, hbreak] at heq
    have heq2 : _convert_kobo_spans name ctx cs = some (out, ctx2) := by
      rw [← heq]
      show _convert_kobo_spans name ctx cs = if name = "math" ∨ name = "svg"
        then some ([], ctx) else _convert_kobo_spans name ctx cs
      rw [if_neg hms]
    exact hih out ctx2 heq2
  · intro pname ctx t out ctx2 heq
    rw [convertChild_text] at heq
    exact emitSentences_inv pname (split_sentences t) ctx out ctx2 heq
  · intro pname ctx out ctx2 heq
    simp only [convertChild, Option.some.injEq, Prod.mk.injEq] at heq
    obtain ⟨rfl, rfl⟩ := heq
    exact EmitsInv_nil ctx
  · intro pname ctx out ctx2 heq
    rw [ckob_nil] at heq
    simp only [Option.some.injEq, Prod.mk.injEq] at heq
    obtain ⟨rfl, rfl⟩ := heq
    exact EmitsInv_nil ctx
  · intro pname ctx child rest hnone hih out ctx2 heq
    rw [ckob_cons, hnone] at heq
    exact Option.noConfusion heq
  · intro pname ctx child rest outs c3 hchild hrest hih1 hih2 out ctx2 heq
    rw [ckob_cons, hchild] at heq
    have heq2 : (match _convert_kobo_spans pname c3 rest with
      | none => none
      | some (out2, c2) => some (outs ++ out2, c2)) = some (out, ctx2) := heq
    rw [hrest] at heq2
    exact Option.noConfusion heq2
  · intro pname ctx child rest outs c3 hchild outs2 c4 hrest hih1 hih2 out ctx2 heq
    rw [ckob_cons, hchild] at heq
    have heq2 : (match _convert_kobo_spans pname c3 rest with
      | none => none
      | some (out2, c2) => some (outs ++ out2, c2)) = some (out, ctx2) := heq
    rw [hrest] at heq2
    have heq3 : some (outs ++ outs2, c4) = some (out, ctx2) := heq2
    simp only [Option.some.injEq, Prod.mk.injEq] at heq3
    obtain ⟨rfl, rfl⟩ := heq3
    exact EmitsInv_append (hih1 outs c3 hchild) (hih2 outs2 c4 hrest)

theorem chain_to_chain' {α : Type} {R : α → α → Prop} {a : α} {l : List α}
    (h : List.Chain R a l) : List.Chain' R l := by
  cases l with
  | nil => exact trivial
  | cons b t => exact (List.chain_cons.mp h).2

theorem forall₂_mem_left {α β : Type} {R : α → β → Prop} :
    ∀ {l1 : List α} {l2 : List β}, List.Forall₂ R l1 l2 → ∀ a ∈ l1, ∃ b ∈ l2, R a b := by
  intro l1 l2 h
  induction h with
  | nil =>
    intro a ha
    simp at ha
  | cons hR hrest ih =>
    intro a ha
    rcases List.mem_cons.mp ha with rfl | ha2
    · exact ⟨_, by simp, hR⟩
    · obtain ⟨b, hb, hRb⟩ := ih a ha2
      exact ⟨b, by simp [hb], hRb⟩

theorem SpanShaped_no_elem {n : Node} {pr : Nat × Nat} (h : SpanShaped n pr)
    {tag : String} (htag : tag ≠ "span") : hasElemNamed tag n = false := by
  obtain ⟨t, rfl⟩ := h
  show (("span" == tag) || hasElemNamedList tag [Node.text t]) = false
  have h2 : hasElemNamedList tag [Node.text t] = false := rfl
  rw [h2, Bool.or_false, beq_eq_false_iff_ne]
  exact fun hcon => htag hcon.symm

theorem SpanShaped_hasKobo {n : Node} {pr : Nat × Nat} (h : SpanShaped n pr) :
    hasKoboClass n = true := by
  obtain ⟨t, rfl⟩ := h
  rfl

theorem markerIds_span {n : Node} {pr : Nat × Nat} (h : SpanShaped n pr) :
    markerIds n = [koboId pr.1 pr.2] := by
  obtain ⟨t, rfl⟩ := h
  rfl

theorem markerIdsList_forall₂ :
    ∀ {out : List Node} {ps : List (Nat × Nat)}, List.Forall₂ SpanShaped out ps →
      markerIdsList out = ps.map (fun pr => koboId pr.1 pr.2) := by
  intro out ps h
  induction h with
  | nil => rfl
  | cons hR hrest ih =>
    rw [markerIdsList, markerIds_span hR, ih]
    rfl

/-- C8: when the rewrite meets an element named `math` or `svg` the whole subtree
is dropped — the child contributes nothing to the output and the shared context
is unchanged — and consequently no element named `math` or `svg` (nor anything
below one, whose subtree was never visited) occurs anywhere in a successfully
converted output. -/
theorem C8_math_svg_dropped :
    (∀ (pname : String) (ctx : Ctx) (attrs : List (String × String)) (cs : List Node),
      convertChild pname ctx (Node.element "math" attrs cs) = some ([], ctx) ∧
      convertChild pname ctx (Node.element "svg" attrs cs) = some ([], ctx)) ∧
    (∀ (pname : String) (ctx : Ctx) (l : List Node) (out : List Node) (ctx2 : Ctx),
      _convert_kobo_spans pname ctx l = some (out, ctx2) →
      ∀ n ∈ out, hasElemNamed "math" n = false ∧ hasElemNamed "svg" n = false) := by
  constructor
  · intro pname ctx attrs cs
    exact ⟨rfl, rfl⟩
  · intro pname ctx l out ctx2 heq n hn
    obtain ⟨ps, hf, hch, hl⟩ := convert_spans_inv.2 pname ctx l out ctx2 heq
    obtain ⟨pr, hmem, hshape⟩ := forall₂_mem_left hf n hn
    exact ⟨SpanShaped_no_elem hshape (by decide), SpanShaped_no_elem hshape (by decide)⟩

theorem C8_witness :
    convertChild "body" { para := 0, sent := 0, force_new_para := false }
      (Node.element "math" [] [Node.text "x"]) =
      some ([], { para := 0, sent := 0, force_new_para := false }) ∧
    hasElemNamed "math" (Node.element "span" [("class", "kobospan"), ("id", "kobo.0.1")]
      [Node.text "Hi"]) = false := by
  constructor
  · exact (C8_math_svg_dropped.1 "body" { para := 0, sent := 0, force_new_para := false }
      [] [Node.text "x"]).1
  · have h := C8_math_svg_dropped.2 "body" { para := 0, sent := 0, force_new_para := false }
      [Node.element "math" [] [Node.text "x"], Node.text "Hi"]
      [Node.element "span" [("class", "kobospan"), ("id", "kobo.0.1")] [Node.text "Hi"]]
      { para := 0, sent := 1, force_new_para := false } rfl
    exact (h _ (by simp)).1

/-- C7: within one document's rewrite, whenever the rewrite of a child list
succeeds, the emitted markers — read back out of the output in emission order —
are the `koboId` images of a pair sequence that advances from the starting
context by `StepOk` (same paragraph with the sentence counter bumped, or the
next paragraph with the sentence counter restarted at 1, which is how a text
span opens a new paragraph); hence the paragraph components are non-decreasing
in emission order and all emitted marker ids are pairwise distinct. -/
theorem C7_marker_invariants (pname : String) (ctx : Ctx) (l : List Node)
    (out : List Node) (ctx2 : Ctx)
    (heq : _convert_kobo_spans pname ctx l = some (out, ctx2)) :
    ∃ ps : List (Nat × Nat),
      markerIdsList out = ps.map (fun pr => koboId pr.1 pr.2) ∧
      List.Chain StepOk (ctx.para, ctx.sent) ps ∧
      List.Chain' (fun a b => a ≤ b) (ps.map Prod.fst) ∧
      (markerIdsList out).Nodup := by
  obtain ⟨ps, hf, hch, hl⟩ := convert_spans_inv.2 pname ctx l out ctx2 heq
  have hids := markerIdsList_forall₂ hf
  have hmono : List.Chain' (fun a b : Nat => a ≤ b) (ps.map Prod.fst) := by
    have h1 : List.Chain (fun a b : Nat × Nat => a.1 ≤ b.1) (ctx.para, ctx.sent) ps :=
      List.Chain.imp (fun a b hab => by unfold StepOk at hab; omega) hch
    have h2 : List.Chain' (fun a b : Nat × Nat => a.1 ≤ b.1) ps := chain_to_chain' h1
    exact (List.chain'_map Prod.fst).mpr h2
  have hlex : List.Chain PairLt (ctx.para, ctx.sent) ps :=
    List.Chain.imp (fun a b hab => by unfold StepOk at hab; unfold PairLt; omega) hch
  have hpw : List.Pairwise PairLt ps :=
    (List.chain_iff_pairwise.mp hlex).of_cons
  have hnodup : (markerIdsList out).Nodup := by
    rw [hids]
    exact List.Pairwise.map _ (fun a b hab hcon => by
      obtain ⟨h1, h2⟩ := koboId_inj hcon
      unfold PairLt at hab
      omega) hpw
  exact ⟨ps, hids, hch, hmono, hnodup⟩

theorem C7_witness :
    ∃ ps : List (Nat × Nat),
      markerIdsList
        [Node.element "span" [("class", "kobospan"), ("id", "kobo.1.1")] [Node.text "Hi. "],
         Node.element "span" [("class", "kobospan"), ("id", "kobo.1.2")] [Node.text "Yo."],
         Node.element "span" [("class", "kobospan"), ("id", "kobo.1.3")] [Node.text "Tail"]] =
        ps.map (fun pr => koboId pr.1 pr.2) ∧
      List.Chain StepOk (0, 0) ps ∧
      List.Chain' (fun a b => a ≤ b) (ps.map Prod.fst) ∧
      (markerIdsList
        [Node.element "span" [("class", "kobospan"), ("id", "kobo.1.1")] [Node.text "Hi. "],
         Node.element "span" [("class", "kobospan"), ("id", "kobo.1.2")] [Node.text "Yo."],
         Node.element "span" [("class", "kobospan"), ("id", "kobo.1.3")] [Node.text "Tail"]]).Nodup :=
  C7_marker_invariants "body" { para := 0, sent := 0, force_new_para := false }
    [Node.element "p" [] [Node.text "Hi. Yo."], Node.text "Tail"]
    [Node.element "span" [("class", "kobospan"), ("id", "kobo.1.1")] [Node.text "Hi. "],
     Node.element "span" [("class", "kobospan"), ("id", "kobo.1.2")] [Node.text "Yo."],
     Node.element "span" [("class", "kobospan"), ("id", "kobo.1.3")] [Node.text "Tail"]]
    { para := 1, sent := 3, force_new_para := false } rfl

theorem hasKoboClass_split (name : String) (attrs : List (String × String)) (cs : List Node) :
    hasKoboClass (Node.element name attrs cs) = true ↔
      (hasKoboClass (Node.element name attrs []) = true ∨ hasKoboClassList cs = true) := by
  show ((match attrGet "class" attrs with
      | some cl => strContains cl.data "kobospan".data
      | none => false) || hasKoboClassList cs) = true ↔
    (((match attrGet "class" attrs with
      | some cl => strContains cl.data "kobospan".data
      | none => false) || hasKoboClassList []) = true ∨ hasKoboClassList cs = true)
  simp [hasKoboClassList]

/-- C6: the idempotency guard and idempotence.  First: if any element in the
depth-first scan (the body element itself, via its attributes, or any element
below it) carries a `class` attribute containing `kobospan`, the converter makes
no change — the children are returned exactly as given.  Second: applying the
converter to the children it itself produced returns them unchanged. -/
theorem C6_idempotent :
    (∀ (name : String) (attrs : List (String × String)) (cs : List Node),
      hasKoboClass (Node.element name attrs cs) = true →
      convert_kobo_spans name attrs cs = some cs) ∧
    (∀ (name : String) (attrs : List (String × String)) (cs out : List Node),
      convert_kobo_spans name attrs cs = some out →
      convert_kobo_spans name attrs out = some out) := by
  have hguard : ∀ (name : String) (attrs : List (String × String)) (cs : List Node),
      hasKoboClass (Node.element name attrs cs) = true →
      convert_kobo_spans name attrs cs = some cs := by
    intro name attrs cs h
    rw [convert_kobo_spans, if_pos h]
  refine ⟨hguard, ?_⟩
  intro name attrs cs out heq
  rw [convert_kobo_spans] at heq
  by_cases hg : hasKoboClass (Node.element name attrs cs) = true
  · rw [if_pos hg] at heq
    have hcs : cs = out := by simpa using heq
    subst hcs
    exact hguard name attrs cs hg
  · rw [if_neg hg] at heq
    rcases hconv : _convert_kobo_spans name { para := 0, sent := 0, force_new_para := false } cs
      with _ | ⟨new_children, cfin⟩
    · rw [hconv] at heq
      exact Option.noConfusion heq
    · rw [hconv] at heq
      have heq2 : some new_children = some out := heq
      have hout : new_children = out := by simpa using heq2
      subst hout
      obtain ⟨ps, hf, hch2, hl2⟩ :=
        convert_spans_inv.2 name { para := 0, sent := 0, force_new_para := false } cs
          new_children cfin hconv
      cases new_children with
      | nil =>
        have hg2 : ¬ hasKoboClass (Node.element name attrs []) = true := by
          intro hcon
          exact hg ((hasKoboClass_split name attrs cs).mpr (Or.inl hcon))
        rw [convert_kobo_spans, if_neg hg2]
        rfl
      | cons n0 rest2 =>
        have hn0 : ∃ pr, SpanShaped n0 pr := by
          cases hf with
          | cons hR htail => exact ⟨_, hR⟩
        obtain ⟨pr, hR⟩ := hn0
        have hg3 : hasKoboClass (Node.element name attrs (n0 :: rest2)) = true := by
          apply (hasKoboClass_split name attrs (n0 :: rest2)).mpr
          right
          show (hasKoboClass n0 || hasKoboClassList rest2) = true
          rw [SpanShaped_hasKobo hR]
          rfl
        exact hguard name attrs (n0 :: rest2) hg3

theorem C6_witness :
    hasKoboClass (Node.element "body" [("class", "kobospan x")] [Node.text "Hi"]) = true ∧
    convert_kobo_spans "body" [("class", "kobospan x")] [Node.text "Hi"] =
      some [Node.text "Hi"] := by
  constructor
  · rfl
  · exact C6_idempotent.1 "body" [("class", "kobospan x")] [Node.text "Hi"] rfl

/-- C1, counterexample: the claim says a visited `div` element (a "no earlier
rule" element) is retained in the output with rewritten children.  On the input
`<div>Hi</div>` the rewrite instead returns only the span made from the text
child — the `div` element itself is not in the output. -/
theorem C1_counterexample :
    _convert_kobo_spans "body" { para := 0, sent := 0, force_new_para := false }
        [Node.element "div" [] [Node.text "Hi"]] =
      some ([Node.element "span" [("class", "kobospan"), ("id", "kobo.0.1")]
        [Node.text "Hi"]], { para := 0, sent := 1, force_new_para := false }) ∧
    Node.element "div" [] [Node.text "Hi"] ∉
      [Node.element "span" [("class", "kobospan"), ("id", "kobo.0.1")] [Node.text "Hi"]] := by
  constructor
  · rfl
  · intro hmem
    rw [List.mem_singleton] at hmem
    exact Node.noConfusion hmem (fun hname _ _ => by simp at hname)

/-- C1, amended: for every element visited by the rewrite whose name is `p`,
`ol`, `ul`, `table` or a two-character name beginning with `h` (i.e. the break
guard returns `true`), and for every element matching no earlier rule (the guard
returns `false`), the rewrite recurses into the element's children with the same
shared context — with `force_new_para` set first in the break case — but the
element itself is NOT retained: its rewritten children are spliced directly into
the parent's output sequence in its place, and every node of that output is a
marker span. -/
theorem C1_element_children_hoisted (pname : String) (ctx : Ctx) (name : String)
    (attrs : List (String × String)) (cs rest : List Node) (b : Bool)
    (himg : name ≠ "img") (hbreak : breakTest name = some b)
    (hmath : name ≠ "math") (hsvg : name ≠ "svg") :
    _convert_kobo_spans pname ctx (Node.element name attrs cs :: rest) =
      (match _convert_kobo_spans name
          (if b then { ctx with force_new_para := true } else ctx) cs with
       | none => none
       | some (out1, c1) =>
         match _convert_kobo_spans pname c1 rest with
         | none => none
         | some (out2, c2) => some (out1 ++ out2, c2)) ∧
    (∀ out ctx2, _convert_kobo_spans pname ctx (Node.element name attrs cs :: rest) =
        some (out, ctx2) → ∀ n ∈ out, nodeName n = "span") := by
  constructor
  · rw [ckob_cons, convertChild_elem pname ctx name attrs cs b himg hbreak hmath hsvg]
  · intro out ctx2 heq n hn
    obtain ⟨ps, hf, hch, hl⟩ :=
      convert_spans_inv.2 pname ctx (Node.element name attrs cs :: rest) out ctx2 heq
    obtain ⟨pr, hmem, hshape⟩ := forall₂_mem_left hf n hn
    obtain ⟨t, rfl⟩ := hshape
    rfl

theorem C1_witness :
    breakTest "div" = some false ∧
    nodeName (Node.element "span" [("class", "kobospan"), ("id", "kobo.0.1")]
      [Node.text "Hi"]) = "span" := by
  constructor
  · rfl
  · have h := C1_element_children_hoisted "body"
      { para := 0, sent := 0, force_new_para := false } "div" [] [Node.text "Hi"] [] false
      (by decide) rfl (by decide) (by decide)
    exact h.2
      [Node.element "span" [("class", "kobospan"), ("id", "kobo.0.1")] [Node.text "Hi"]]
      { para := 0, sent := 1, force_new_para := false } rfl _ (by simp)

/-- C2: the claim says an `img` element is wrapped, without panicking, in a new
marker span `kobo.<paragraph>.0`.  In the code the `img` arm calls
`make_span(*para, *sent, None)`, whose `None` branch is `todo!()` — it panics
before any span is produced (the comment `img elements get wrapped in their own
para` documents the intent).  The model evaluates the `img` arm to `none`
(panic), for any img element and in particular for a bare `<img>` body after
restructuring. -/
theorem C2_img_panics :
    (∀ (pname : String) (ctx : Ctx) (attrs : List (String × String)) (cs rest : List Node),
      _convert_kobo_spans pname ctx (Node.element "img" attrs cs :: rest) = none) ∧
    convert_html_file
      [Node.element "body" [] [Node.element "img" [("src", "cover.png")] []]] = none := by
  constructor
  · intro pname ctx attrs cs rest
    rw [ckob_cons, convertChild_img]
  · rfl

/-- C9: the claim says formatting a `ConverterError` through its `Display`
implementation terminates with a finite message.  The implementation is
`write!(f, ..., self)` with a `Display` format of `self`, so each formatting
step only calls itself again: no recursion depth ever produces a string. -/
theorem C9_display_diverges : ∀ (n : Nat) (e : ConverterError), fmtDisplay n e = none := by
  intro n
  induction n with
  | zero =>
    intro e
    rfl
  | succ n ih =>
    intro e
    exact ih e

/-- C10, counterexample: the heading-tag test panics (models to `none`) on the
element name consisting of the single character U+00E9, whose UTF-8 encoding is
exactly two bytes: the byte length is 2 but byte index 1 is not a character
boundary, so the slice `n[0..1]` panics. -/
theorem C10_counterexample : headingTest (String.mk [Char.ofNat 233]) = none := rfl

/-- C10, amended: evaluating the heading-tag test returns a boolean without
panicking for every element name EXCEPT those consisting of a single character
that occupies exactly two bytes; exactly there the byte slice `n[0..1]` falls on
a non-boundary and the code panics. -/
theorem C10_heading_test_panic_iff (s : String) :
    headingTest s = none ↔ ∃ c : Char, s.data = [c] ∧ c.utf8Size = 2 := by
  rw [headingTest]
  by_cases hlen : utf8Len s.data = 2
  · rw [if_pos hlen]
    rcases hdata : s.data with _ | ⟨c, rest⟩
    · rw [hdata] at hlen
      simp [utf8Len] at hlen
    · rw [hdata] at hlen
      have hsum : c.utf8Size + utf8Len rest = 2 := by
        rw [← hlen]
        simp [utf8Len]
      have hcpos : 0 < c.utf8Size := Char.utf8Size_pos c
      show (if c.utf8Size = 1 then some (c == 'h') else none) = none ↔ _
      by_cases hc : c.utf8Size = 1
      · rw [if_pos hc]
        constructor
        · intro hcon
          exact Option.noConfusion hcon
        · rintro ⟨c2, hc2, hsize⟩
          injection hc2 with h1 h2
          subst h1
          omega
      · rw [if_neg hc]
        have hrest : rest = [] := by
          cases rest with
          | nil => rfl
          | cons d ds =>
            have hdpos : 0 < d.utf8Size := Char.utf8Size_pos d
            have : utf8Len (d :: ds) = d.utf8Size + utf8Len ds := by simp [utf8Len]
            have hgoal : 0 ≤ utf8Len ds := Nat.zero_le _
            omega
        subst hrest
        simp only [utf8Len, List.map_cons, List.map_nil, List.sum_cons, List.sum_nil,
          Nat.add_zero] at hsum
        constructor
        · intro hcon
          exact ⟨c, rfl, hsum⟩
        · intro hcon
          rfl
  · rw [if_neg hlen]
    constructor
    · intro hcon
      exact Option.noConfusion hcon
    · rintro ⟨c, hc, hsize⟩
      rw [hc] at hlen
      simp [utf8Len, hsize] at hlen

/-! ## Lemmas about the Body Restructurer -/

theorem restructure_nil : restructure [] = none := rfl

theorem restructure_cons_body (a : List (String × String)) (ccs rest : List Node) :
    restructure (Node.element "body" a ccs :: rest) =
      some (Node.element "body" a (scaffold ccs) :: rest) := rfl

theorem restructure_cons_elem_ne (n : String) (a : List (String × String))
    (ccs rest : List Node) (hn : n ≠ "body") :
    restructure (Node.element n a ccs :: rest) =
      match restructure rest with
      | none => none
      | some rest2 => some (Node.element n a ccs :: rest2) := by
  rw [restructure, mutFirstChild, if_neg hn]
  rfl

theorem restructure_cons_text (t : String) (rest : List Node) :
    restructure (Node.text t :: rest) =
      match restructure rest with
      | none => none
      | some rest2 => some (Node.text t :: rest2) := rfl

theorem restructure_cons_other (rest : List Node) :
    restructure (Node.other :: rest) =
      match restructure rest with
      | none => none
      | some rest2 => some (Node.other :: rest2) := rfl

/-- C5: the Body Restructurer fails exactly when the root has no direct child
element named `body`; otherwise the first such child keeps its place, name and
attributes, and its children become the single outer wrapper `div` with id
`book-columns`, whose only child is the inner wrapper `div` with id
`book-inner`, whose children are the body's original children in their original
order; all surrounding children are untouched. -/
theorem C5_restructure (cs : List Node) :
    (restructure cs = none ↔ ∀ n ∈ cs, isElemNamed "body" n = false) ∧
    (∀ cs2, restructure cs = some cs2 →
      ∃ (pre : List Node) (battrs : List (String × String)) (orig post : List Node),
        cs = pre ++ Node.element "body" battrs orig :: post ∧
        (∀ n ∈ pre, isElemNamed "body" n = false) ∧
        cs2 = pre ++ Node.element "body" battrs
          [Node.element "div" [("id", "book-columns")]
            [Node.element "div" [("id", "book-inner")] orig]] :: post) := by
  induction cs with
  | nil =>
    refine ⟨⟨fun h n hn => absurd hn (by simp), fun h => rfl⟩, ?_⟩
    intro cs2 h
    exact Option.noConfusion h
  | cons x rest ih =>
    cases x with
    | element n a ccs =>
      by_cases hn : n = "body"
      · subst hn
        refine ⟨⟨?_, ?_⟩, ?_⟩
        · intro h
          rw [restructure_cons_body] at h
          exact Option.noConfusion h
        · intro h
          have h2 := h (Node.element "body" a ccs) (by simp)
          simp [isElemNamed] at h2
        · intro cs2 h
          rw [restructure_cons_body] at h
          have h2 : Node.element "body" a (scaffold ccs) :: rest = cs2 := by simpa using h
          refine ⟨[], a, ccs, rest, by simp, by simp, ?_⟩
          rw [← h2]
          rfl
      · refine ⟨⟨?_, ?_⟩, ?_⟩
        · intro h n2 hn2
          rw [restructure_cons_elem_ne n a ccs rest hn] at h
          rcases hres : restructure rest with _ | rest2
          · rcases List.mem_cons.mp hn2 with rfl | hmem
            · simp [isElemNamed, hn]
            · exact (ih.1.mp hres) n2 hmem
          · rw [hres] at h
            exact Option.noConfusion h
        · intro hall
          rw [restructure_cons_elem_ne n a ccs rest hn]
          have hrest : restructure rest = none :=
            ih.1.mpr (fun n2 hm => hall n2 (List.mem_cons_of_mem _ hm))
          rw [hrest]
        · intro cs2 h
          rw [restructure_cons_elem_ne n a ccs rest hn] at h
          rcases hres : restructure rest with _ | rest2
          · rw [hres] at h
            exact Option.noConfusion h
          · rw [hres] at h
            have h2 : Node.element n a ccs :: rest2 = cs2 := by simpa using h
            obtain ⟨pre, battrs, orig, post, hcs, hpre, hcs2⟩ := ih.2 rest2 hres
            refine ⟨Node.element n a ccs :: pre, battrs, orig, post, ?_, ?_, ?_⟩
            · rw [hcs]
              rfl
            · intro n2 hn2
              rcases List.mem_cons.mp hn2 with rfl | hm
              · simp [isElemNamed, hn]
              · exact hpre n2 hm
            · rw [← h2, hcs2]
              rfl
    | text t =>
      refine ⟨⟨?_, ?_⟩, ?_⟩
      · intro h n2 hn2
        rw [restructure_cons_text] at h
        rcases hres : restructure rest with _ | rest2
        · rcases List.mem_cons.mp hn2 with rfl | hmem
          · rfl
          · exact (ih.1.mp hres) n2 hmem
        · rw [hres] at h
          exact Option.noConfusion h
      · intro hall
        rw [restructure_cons_text]
        have hrest : restructure rest = none :=
          ih.1.mpr (fun n2 hm => hall n2 (List.mem_cons_of_mem _ hm))
        rw [hrest]
      · intro cs2 h
        rw [restructure_cons_text] at h
        rcases hres : restructure rest with _ | rest2
        · rw [hres] at h
          exact Option.noConfusion h
        · rw [hres] at h
          have h2 : Node.text t :: rest2 = cs2 := by simpa using h
          obtain ⟨pre, battrs, orig, post, hcs, hpre, hcs2⟩ := ih.2 rest2 hres
          refine ⟨Node.text t :: pre, battrs, orig, post, ?_, ?_, ?_⟩
          · rw [hcs]
            rfl
          · intro n2 hn2
            rcases List.mem_cons.mp hn2 with rfl | hm
            · rfl
            · exact hpre n2 hm
          · rw [← h2, hcs2]
            rfl
    | other =>
      refine ⟨⟨?_, ?_⟩, ?_⟩
      · intro h n2 hn2
        rw [restructure_cons_other] at h
        rcases hres : restructure rest with _ | rest2
        · rcases List.mem_cons.mp hn2 with rfl | hmem
          · rfl
          · exact (ih.1.mp hres) n2 hmem
        · rw [hres] at h
          exact Option.noConfusion h
      · intro hall
        rw [restructure_cons_other]
        have hrest : restructure rest = none :=
          ih.1.mpr (fun n2 hm => hall n2 (List.mem_cons_of_mem _ hm))
        rw [hrest]
      · intro cs2 h
        rw [restructure_cons_other] at h
        rcases hres : restructure rest with _ | rest2
        · rw [hres] at h
          exact Option.noConfusion h
        · rw [hres] at h
          have h2 : Node.other :: rest2 = cs2 := by simpa using h
          obtain ⟨pre, battrs, orig, post, hcs, hpre, hcs2⟩ := ih.2 rest2 hres
          refine ⟨Node.other :: pre, battrs, orig, post, ?_, ?_, ?_⟩
          · rw [hcs]
            rfl
          · intro n2 hn2
            rcases List.mem_cons.mp hn2 with rfl | hm
            · rfl
            · exact hpre n2 hm
          · rw [← h2, hcs2]
            rfl

theorem C5_witness :
    ∃ (pre : List Node) (battrs : List (String × String)) (orig post : List Node),
      [Node.element "head" [] [], Node.element "body" [("class", "c")]
        [Node.text "a", Node.other]] =
        pre ++ Node.element "body" battrs orig :: post ∧
      (∀ n ∈ pre, isElemNamed "body" n = false) ∧
      [Node.element "head" [] [], Node.element "body" [("class", "c")]
        [Node.element "div" [("id", "book-columns")]
          [Node.element "div" [("id", "book-inner")] [Node.text "a", Node.other]]]] =
        pre ++ Node.element "body" battrs
          [Node.element "div" [("id", "book-columns")]
            [Node.element "div" [("id", "book-inner")] orig]] :: post :=
  (C5_restructure [Node.element "head" [] [], Node.element "body" [("class", "c")]
    [Node.text "a", Node.other]]).2
    [Node.element "head" [] [], Node.element "body" [("class", "c")]
      [Node.element "div" [("id", "book-columns")]
        [Node.element "div" [("id", "book-inner")] [Node.text "a", Node.other]]]] rfl

/-! ## Lemmas about the Manifest Patcher -/

theorem find_first_cons (tag : String) (want : List (String × String)) (child : Node)
    (rest : List Node) :
    find_first_child_with_attrs tag want (child :: rest) =
      match findInChild tag want child with
      | some e => some e
      | none => find_first_child_with_attrs tag want rest := rfl

theorem findInChild_elem (tag : String) (want : List (String × String)) (n : String)
    (a : List (String × String)) (cs : List Node) :
    findInChild tag want (Node.element n a cs) =
      if (decide (n = tag) && attrsMatch want a) = true then some (Node.element n a cs)
      else find_first_child_with_attrs tag want cs := rfl

theorem patchInChild_elem (tag : String) (want : List (String × String)) (f : Node → Node)
    (n : String) (a : List (String × String)) (cs : List Node) :
    patchInChild tag want f (Node.element n a cs) =
      if (decide (n = tag) && attrsMatch want a) = true then some (f (Node.element n a cs))
      else
        match find_first_child_with_attrs_mut tag want f cs with
        | none => none
        | some cs2 => some (Node.element n a cs2) := rfl

theorem mut_cons (tag : String) (want : List (String × String)) (f : Node → Node)
    (child : Node) (rest : List Node) :
    find_first_child_with_attrs_mut tag want f (child :: rest) =
      match patchInChild tag want f child with
      | some child2 => some (child2 :: rest)
      | none =>
        match find_first_child_with_attrs_mut tag want f rest with
        | none => none
        | some rest2 => some (child :: rest2) := rfl

/-- Joint specification of the mutating search against the read-only search:
provided `f` keeps a matching element an element with the same name and a still
matching attribute set, the mutating search fails exactly when the read-only
search fails, and on success the read-only search finds the same (element)
witness in the old tree and its `f`-image at the same position in the new
tree. -/
theorem patch_find_spec (tag : String) (want : List (String × String)) (f : Node → Node)
    (Hf : ∀ (nm : String) (a : List (String × String)) (cs : List Node),
      (decide (nm = tag) && attrsMatch want a) = true →
      ∃ a2 cs2, f (Node.element nm a cs) = Node.element nm a2 cs2 ∧
        (decide (nm = tag) && attrsMatch want a2) = true) :
    (∀ l : List Node,
      (find_first_child_with_attrs_mut tag want f l = none ↔
        find_first_child_with_attrs tag want l = none) ∧
      (∀ l2, find_first_child_with_attrs_mut tag want f l = some l2 →
        ∃ m, find_first_child_with_attrs tag want l = some m ∧
          find_first_child_with_attrs tag want l2 = some (f m) ∧
          ∃ nm aa cc, m = Node.element nm aa cc ∧
            (decide (nm = tag) && attrsMatch want aa) = true)) ∧
    (∀ n : Node,
      (patchInChild tag want f n = none ↔ findInChild tag want n = none) ∧
      (∀ n2, patchInChild tag want f n = some n2 →
        ∃ m, findInChild tag want n = some m ∧ findInChild tag want n2 = some (f m) ∧
          ∃ nm aa cc, m = Node.element nm aa cc ∧
            (decide (nm = tag) && attrsMatch want aa) = true)) := by
  refine find_first_child_with_attrs_mut.mutual_induct tag want f
    (fun l =>
      (find_first_child_with_attrs_mut tag want f l = none ↔
        find_first_child_with_attrs tag want l = none) ∧
      (∀ l2, find_first_child_with_attrs_mut tag want f l = some l2 →
        ∃ m, find_first_child_with_attrs tag want l = some m ∧
          find_first_child_with_attrs tag want l2 = some (f m) ∧
          ∃ nm aa cc, m = Node.element nm aa cc ∧
            (decide (nm = tag) && attrsMatch want aa) = true))
    (fun n =>
      (patchInChild tag want f n = none ↔ findInChild tag want n = none) ∧
      (∀ n2, patchInChild tag want f n = some n2 →
        ∃ m, findInChild tag want n = some m ∧ findInChild tag want n2 = some (f m) ∧
          ∃ nm aa cc, m = Node.element nm aa cc ∧
            (decide (nm = tag) && attrsMatch want aa) = true))
    ?_ ?_ ?_ ?_ ?_ ?_ ?_ ?_
  · intro n a cs hguard
    have hp : patchInChild tag want f (Node.element n a cs) =
        some (f (Node.element n a cs)) := by
      rw [patchInChild_elem, if_pos hguard]
    have hfind : findInChild tag want (Node.element n a cs) =
        some (Node.element n a cs) := by
      rw [findInChild_elem, if_pos hguard]
    constructor
    · rw [hp, hfind]
      simp
    · intro n2 hsome
      rw [hp] at hsome
      have hn2 : f (Node.element n a cs) = n2 := by simpa using hsome
      obtain ⟨a2, cs2, hfeq, hguard2⟩ := Hf n a cs hguard
      refine ⟨Node.element n a cs, hfind, ?_, n, a, cs, rfl, hguard⟩
      rw [← hn2, hfeq, findInChild_elem, if_pos hguard2, ← hfeq]
  · intro n a cs hguard hmut hih
    have hp : patchInChild tag want f (Node.element n a cs) =
        match find_first_child_with_attrs_mut tag want f cs with
        | none => none
        | some cs2 => some (Node.element n a cs2) := by
      rw [patchInChild_elem, if_neg hguard]
    have hfind : findInChild tag want (Node.element n a cs) =
        find_first_child_with_attrs tag want cs := by
      rw [findInChild_elem, if_neg hguard]
    constructor
    · rw [hp, hmut, hfind]
      simp [hih.1.mp hmut]
    · intro n2 hsome
      rw [hp, hmut] at hsome
      exact Option.noConfusion hsome
  · intro n a cs hguard cs2 hmut hih
    have hp : patchInChild tag want f (Node.element n a cs) =
        some (Node.element n a cs2) := by
      rw [patchInChild_elem, if_neg hguard, hmut]
    have hfind : findInChild tag want (Node.element n a cs) =
        find_first_child_with_attrs tag want cs := by
      rw [findInChild_elem, if_neg hguard]
    obtain ⟨m, hfcs, hfcs2, hmelem⟩ := hih.2 cs2 hmut
    constructor
    · rw [hp, hfind, hfcs]
      simp
    · intro n2 hsome
      rw [hp] at hsome
      have hn2 : Node.element n a cs2 = n2 := by simpa using hsome
      refine ⟨m, by rw [hfind, hfcs], ?_, hmelem⟩
      rw [← hn2, findInChild_elem, if_neg hguard]
      exact hfcs2
  · intro x hne
    have hp : patchInChild tag want f x = none := by
      cases x with
      | element n a cs => exact absurd rfl (hne n a cs)
      | text t => rfl
      | other => rfl
    have hfind : findInChild tag want x = none := by
      cases x with
      | element n a cs => exact absurd rfl (hne n a cs)
      | text t => rfl
      | other => rfl
    constructor
    · rw [hp, hfind]
    · intro n2 hsome
      rw [hp] at hsome
      exact Option.noConfusion hsome
  · constructor
    · constructor <;> intro h <;> rfl
    · intro l2 hsome
      exact Option.noConfusion hsome
  · intro child rest e hpatch hih
    obtain ⟨m, hfc, hfe, hmelem⟩ := hih.2 e hpatch
    have hmut2 : find_first_child_with_attrs_mut tag want f (child :: rest) =
        some (e :: rest) := by
      rw [mut_cons, hpatch]
    constructor
    · rw [hmut2, find_first_cons, hfc]
      simp
    · intro l2 hsome
      rw [hmut2] at hsome
      have hl2 : e :: rest = l2 := by simpa using hsome
      refine ⟨m, by rw [find_first_cons, hfc], ?_, hmelem⟩
      rw [← hl2, find_first_cons, hfe]
  · intro child rest hpatch hmut hih1 hih2
    have hmut2 : find_first_child_with_attrs_mut tag want f (child :: rest) = none := by
      rw [mut_cons, hpatch, hmut]
    have hfc : findInChild tag want child = none := hih1.1.mp hpatch
    have hfr : find_first_child_with_attrs tag want rest = none := hih2.1.mp hmut
    constructor
    · rw [hmut2, find_first_cons, hfc, hfr]
      simp
    · intro l2 hsome
      rw [hmut2] at hsome
      exact Option.noConfusion hsome
  · intro child rest hpatch rest2 hmut hih1 hih2
    have hmut2 : find_first_child_with_attrs_mut tag want f (child :: rest) =
        some (child :: rest2) := by
      rw [mut_cons, hpatch, hmut]
    have hfc : findInChild tag want child = none := hih1.1.mp hpatch
    obtain ⟨m, hfr, hfr2, hmelem⟩ := hih2.2 rest2 hmut
    constructor
    · rw [hmut2, find_first_cons, hfc, hfr]
      simp
    · intro l2 hsome
      rw [hmut2] at hsome
      have hl2 : child :: rest2 = l2 := by simpa using hsome
      refine ⟨m, by rw [find_first_cons, hfc]; exact hfr, ?_, hmelem⟩
      rw [← hl2, find_first_cons, hfc]
      exact hfr2

theorem attrGet_attrInsert_ne (k k2 v : String) (attrs : List (String × String))
    (h : k ≠ k2) :
    attrGet k (attrInsert k2 v attrs) = attrGet k attrs := by
  have hne : ¬ k2 = k := fun hc => h hc.symm
  induction attrs with
  | nil =>
    show (if k2 = k then some v else attrGet k []) = attrGet k []
    rw [if_neg hne]
  | cons kv rest ih =>
    obtain ⟨k3, v3⟩ := kv
    show attrGet k (if k3 = k2 then (k2, v) :: rest else (k3, v3) :: attrInsert k2 v rest) =
      attrGet k ((k3, v3) :: rest)
    by_cases h3 : k3 = k2
    · rw [if_pos h3]
      show (if k2 = k then some v else attrGet k rest) =
        if k3 = k then some v3 else attrGet k rest
      rw [if_neg hne, if_neg (fun hc => hne (h3 ▸ hc))]
    · rw [if_neg h3]
      show (if k3 = k then some v3 else attrGet k (attrInsert k2 v rest)) =
        if k3 = k then some v3 else attrGet k rest
      by_cases hk3 : k3 = k
      · rw [if_pos hk3, if_pos hk3]
      · rw [if_neg hk3, if_neg hk3]
        exact ih

theorem attrGet_attrInsert_same (k v : String) (attrs : List (String × String)) :
    attrGet k (attrInsert k v attrs) = some v := by
  induction attrs with
  | nil =>
    show (if k = k then some v else attrGet k []) = some v
    rw [if_pos rfl]
  | cons kv rest ih =>
    obtain ⟨k3, v3⟩ := kv
    show attrGet k (if k3 = k then (k, v) :: rest else (k3, v3) :: attrInsert k v rest) =
      some v
    by_cases h3 : k3 = k
    · rw [if_pos h3]
      show (if k = k then some v else attrGet k rest) = some v
      rw [if_pos rfl]
    · rw [if_neg h3]
      show (if k3 = k then some v3 else attrGet k (attrInsert k v rest)) = some v
      rw [if_neg h3]
      exact ih

theorem attrsMatch_id_attrInsert_properties (cid v : String)
    (a : List (String × String)) :
    attrsMatch [("id", cid)] (attrInsert "properties" v a) = attrsMatch [("id", cid)] a := by
  show ((match attrGet "id" (attrInsert "properties" v a) with
      | some val => val == cid
      | none => false) && true) =
    ((match attrGet "id" a with
      | some val => val == cid
      | none => false) && true)
  rw [attrGet_attrInsert_ne "id" "properties" v a (by decide)]

theorem setCoverImage_Hf (cid : String) :
    ∀ (nm : String) (a : List (String × String)) (cs : List Node),
      (decide (nm = "item") && attrsMatch [("id", cid)] a) = true →
      ∃ a2 cs2, setCoverImage (Node.element nm a cs) = Node.element nm a2 cs2 ∧
        (decide (nm = "item") && attrsMatch [("id", cid)] a2) = true := by
  intro nm a cs hguard
  refine ⟨attrInsert "properties" "cover-image" a, cs, rfl, ?_⟩
  rw [attrsMatch_id_attrInsert_properties]
  exact hguard

theorem convert_opf_meta_none (rn : String) (ra : List (String × String))
    (cs : List Node)
    (h : find_first_child_with_attrs "meta" [("name", "cover")] cs = none) :
    convert_opf rn ra cs = Except.error (ConverterError.XMLError
      "Cannot find meta name cover element in content.opf") := by
  rw [convert_opf, h]

theorem convert_opf_meta_some (rn : String) (ra : List (String × String))
    (cs : List Node) (m : Node)
    (h : find_first_child_with_attrs "meta" [("name", "cover")] cs = some m) :
    convert_opf rn ra cs =
      match attrGet "content" (nodeAttrs m) with
      | none => Except.error (ConverterError.XMLError
          "Cannot read content attribute in meta name cover element in content.opf")
      | some cover_id =>
        match find_first_child_with_attrs_mut "item" [("id", cover_id)] setCoverImage cs with
        | none => Except.error (ConverterError.XMLError
            "Cannot find item with cover id in content.opf")
        | some cs2 => Except.ok (Node.element rn ra cs2) := by
  rw [convert_opf, h]

/-- C4: the Manifest Patcher fails exactly when the first `meta` element with
`name="cover"` (depth-first order, root excluded) is absent, lacks a `content`
attribute, or no `item` element with the matching id exists; otherwise it
succeeds, and in the patched manifest the first `item` element whose id is the
cover id carries the attribute `properties="cover-image"` (inserted or
overwritten). -/
theorem C4_convert_opf (root_name : String) (root_attrs : List (String × String))
    (cs : List Node) :
    ((∃ e, convert_opf root_name root_attrs cs = Except.error e) ↔
      (find_first_child_with_attrs "meta" [("name", "cover")] cs = none ∨
       (∃ m, find_first_child_with_attrs "meta" [("name", "cover")] cs = some m ∧
         attrGet "content" (nodeAttrs m) = none) ∨
       (∃ m cid, find_first_child_with_attrs "meta" [("name", "cover")] cs = some m ∧
         attrGet "content" (nodeAttrs m) = some cid ∧
         find_first_child_with_attrs "item" [("id", cid)] cs = none))) ∧
    (∀ res, convert_opf root_name root_attrs cs = Except.ok res →
      ∃ m cid cs2 item2,
        find_first_child_with_attrs "meta" [("name", "cover")] cs = some m ∧
        attrGet "content" (nodeAttrs m) = some cid ∧
        res = Node.element root_name root_attrs cs2 ∧
        find_first_child_with_attrs "item" [("id", cid)] cs2 = some item2 ∧
        attrGet "properties" (nodeAttrs item2) = some "cover-image") := by
  rcases hmeta : find_first_child_with_attrs "meta" [("name", "cover")] cs with _ | m
  · constructor
    · constructor
      · intro h
        exact Or.inl rfl
      · intro h
        exact ⟨_, convert_opf_meta_none root_name root_attrs cs hmeta⟩
    · intro res hres
      rw [convert_opf_meta_none root_name root_attrs cs hmeta] at hres
      exact Except.noConfusion hres
  · have hred := convert_opf_meta_some root_name root_attrs cs m hmeta
    rcases hcontent : attrGet "content" (nodeAttrs m) with _ | cid
    · rw [hcontent] at hred
      have hrede : convert_opf root_name root_attrs cs =
          Except.error (ConverterError.XMLError
            "Cannot read content attribute in meta name cover element in content.opf") := hred
      constructor
      · constructor
        · intro h
          exact Or.inr (Or.inl ⟨m, rfl, hcontent⟩)
        · intro h
          exact ⟨_, hrede⟩
      · intro res hres
        rw [hrede] at hres
        exact Except.noConfusion hres
    · rw [hcontent] at hred
      have hred2 : convert_opf root_name root_attrs cs =
          match find_first_child_with_attrs_mut "item" [("id", cid)] setCoverImage cs with
          | none => Except.error (ConverterError.XMLError
              "Cannot find item with cover id in content.opf")
          | some cs2 => Except.ok (Node.element root_name root_attrs cs2) := hred
      have hspec := patch_find_spec "item" [("id", cid)] setCoverImage (setCoverImage_Hf cid)
      rcases hmut : find_first_child_with_attrs_mut "item" [("id", cid)] setCoverImage cs
        with _ | cs2
      · rw [hmut] at hred2
        have hrede : convert_opf root_name root_attrs cs =
            Except.error (ConverterError.XMLError
              "Cannot find item with cover id in content.opf") := hred2
        have hitem : find_first_child_with_attrs "item" [("id", cid)] cs = none :=
          (hspec.1 cs).1.mp hmut
        constructor
        · constructor
          · intro h
            exact Or.inr (Or.inr ⟨m, cid, rfl, hcontent, hitem⟩)
          · intro h
            exact ⟨_, hrede⟩
        · intro res hres
          rw [hrede] at hres
          exact Except.noConfusion hres
      · rw [hmut] at hred2
        have hredok : convert_opf root_name root_attrs cs =
            Except.ok (Node.element root_name root_attrs cs2) := hred2
        obtain ⟨m2, hfind, hfind2, nm, aa, cc, hm2, hguard⟩ := (hspec.1 cs).2 cs2 hmut
        constructor
        · constructor
          · intro ⟨e, he⟩
            rw [hredok] at he
            exact Except.noConfusion he
          · intro h
            exfalso
            rcases h with h | ⟨m3, hm3, hc3⟩ | ⟨m3, cid3, hm3, hc3, hit3⟩
            · exact Option.noConfusion h
            · have hm : m = m3 := by simpa using hm3
              rw [← hm] at hc3
              exact Option.noConfusion (hcontent.symm.trans hc3)
            · have hm : m = m3 := by simpa using hm3
              rw [← hm] at hc3
              have hcid : cid = cid3 := by simpa using hcontent.symm.trans hc3
              rw [← hcid] at hit3
              exact Option.noConfusion (hfind.symm.trans hit3)
        · intro res hres
          rw [hredok] at hres
          have hok : Node.element root_name root_attrs cs2 = res := by
            cases hres
            rfl
          refine ⟨m, cid, cs2, setCoverImage m2, rfl, hcontent, hok.symm, hfind2, ?_⟩
          rw [hm2]
          show attrGet "properties" (attrInsert "properties" "cover-image" aa) =
            some "cover-image"
          exact attrGet_attrInsert_same "properties" "cover-image" aa

theorem C4_witness :
    ∃ m cid cs2 item2,
      find_first_child_with_attrs "meta" [("name", "cover")]
        [Node.element "metadata" []
          [Node.element "meta" [("name", "cover"), ("content", "c1")] []],
         Node.element "manifest" []
          [Node.element "item" [("id", "c1"), ("href", "cover.png")] []]] = some m ∧
      attrGet "content" (nodeAttrs m) = some cid ∧
      Node.element "package" []
        [Node.element "metadata" []
          [Node.element "meta" [("name", "cover"), ("content", "c1")] []],
         Node.element "manifest" []
          [Node.element "item"
            [("id", "c1"), ("href", "cover.png"), ("properties", "cover-image")] []]] =
        Node.element "package" [] cs2 ∧
      find_first_child_with_attrs "item" [("id", cid)] cs2 = some item2 ∧
      attrGet "properties" (nodeAttrs item2) = some "cover-image" :=
  (C4_convert_opf "package" []
    [Node.element "metadata" []
      [Node.element "meta" [("name", "cover"), ("content", "c1")] []],
     Node.element "manifest" []
      [Node.element "item" [("id", "c1"), ("href", "cover.png")] []]]).2
    (Node.element "package" []
      [Node.element "metadata" []
        [Node.element "meta" [("name", "cover"), ("content", "c1")] []],
       Node.element "manifest" []
        [Node.element "item"
          [("id", "c1"), ("href", "cover.png"), ("properties", "cover-image")] []]]) rfl

/-! ## Concrete sanity checks of the embedding -/

theorem split_sentences_empty : split_sentences "" = [""] := rfl

theorem split_sentences_no_cut : split_sentences "Hi" = ["Hi"] := rfl

theorem split_sentences_trailing_drop : split_sentences "A. B" = ["A. "] := rfl

theorem split_sentences_two : split_sentences "A. Bc" = ["A. ", "Bc"] := rfl

theorem split_sentences_all_whitespace : split_sentences "  " = ["  "] := rfl
